import Mathlib

/-
Verification of the NFTMarketplace ledger (src/utils/contract.sol) against its
natural-language specification.  The contract is embedded shallowly: machine
integers become Nat, addresses become Nat, the Solidity mappings become total
functions with explicit defaults, and every public function becomes a Lean
function returning Except Err LedgerState, encoding the EVM's all-or-nothing
revert semantics (an error result leaves the pre-state in force).
-/

namespace NFTM

/-- Addresses are modelled as natural numbers.  Address 0 is the zero address,
1 stands for the contract (escrow) address, and 2 for the platform owner that
deployed the contract. -/
def escrowAddr : Nat := 1

/-- The platform owner address, fixed by the Ownable constructor. -/
def platformAddr : Nat := 2

/-- Initial listing fee: 0.025 ether in wei, from the contract field
listingPrice = 0.025 ether. -/
def initialListingPrice : Nat := 25000000000000000

/-- The MarketItem struct of the contract. -/
structure MarketItem where
  tokenId : Nat
  seller : Nat
  owner : Nat
  price : Nat
  sold : Bool
  listed : Bool
deriving DecidableEq, Repr

/-- The Solidity default value of a MarketItem, returned by the mapping for
any key never written (and after delete). -/
def defaultItem : MarketItem := ⟨0, 0, 0, 0, false, false⟩

/-- The error taxonomy of the specification, section 7. -/
inductive Err where
  | validation
  | authorization
  | state
  | transfer
deriving DecidableEq, Repr

/-- Events emitted by the contract (the append-only audit log). -/
inductive Ev where
  | created (tokenId seller owner price : Nat) (sold : Bool)
  | listedEv (tokenId seller price : Nat)
  | delistedEv (tokenId seller : Nat)
  | soldEv (tokenId seller buyer price : Nat)
deriving DecidableEq, Repr

/-- Pointwise update of a map modelled as a function. -/
def upd {α : Type} (f : Nat → α) (k : Nat) (v : α) : Nat → α :=
  fun i => if i = k then v else f i

/-- The full ledger state: the two counters, the configured listing fee, the
market-item mapping, the ERC721 ownership map (none = token does not exist),
the token URI map, the contract's pooled currency balance, the cumulative
amounts transferred out to each external account, the emitted event log, and
the re-entrancy lock of ReentrancyGuard. -/
structure LedgerState where
  tokenIds : Nat
  itemsSold : Nat
  listingPrice : Nat
  items : Nat → MarketItem
  tokenOwner : Nat → Option Nat
  uris : Nat → String
  balance : Nat
  payouts : Nat → Nat
  events : List Ev
  locked : Bool

/-- State right after deployment of the contract. -/
def initState : LedgerState where
  tokenIds := 0
  itemsSold := 0
  listingPrice := initialListingPrice
  items := fun _ => defaultItem
  tokenOwner := fun _ => none
  uris := fun _ => ""
  balance := 0
  payouts := fun _ => 0
  events := []
  locked := false

/-- The operations of the ledger; the first Nat argument of each is the
authenticated caller (msg.sender), and msgValue arguments model msg.value. -/
inductive Op where
  | mint (caller : Nat) (uri : String) (price msgValue : Nat)
  | list (caller tokenId price msgValue : Nat)
  | delist (caller tokenId : Nat)
  | buy (caller tokenId msgValue : Nat)
  | setPrice (caller tokenId newPrice : Nat)
  | setFee (caller newFee : Nat)
  | withdrawOp (caller : Nat)
  | emergency (caller tokenId dest : Nat)

/-- The caller of an operation. -/
def opCaller : Op → Nat
  | .mint c _ _ _ => c
  | .list c _ _ _ => c
  | .delist c _ => c
  | .buy c _ _ => c
  | .setPrice c _ _ => c
  | .setFee c _ => c
  | .withdrawOp c => c
  | .emergency c _ _ => c

/-- createToken: increments the token counter, mints the token to the caller,
stores the URI, and runs createMarketItem (price and fee checks, record write,
escrow transfer, event).  Note: createToken is NOT guarded by nonReentrant in
the source.  The ERC721 mint checks (receiver not zero, token fresh) precede
the createMarketItem requires, matching source order. -/
def stepMint (s : LedgerState) (c : Nat) (u : String) (p v : Nat) : Except Err LedgerState :=
  let newId := s.tokenIds + 1
  if c = 0 then .error .validation
  else if s.tokenOwner newId ≠ none then .error .state
  else if p = 0 then .error .validation
  else if v ≠ s.listingPrice then .error .validation
  else .ok { s with
    tokenIds := newId
    uris := upd s.uris newId u
    items := upd s.items newId ⟨newId, c, escrowAddr, p, false, true⟩
    tokenOwner := upd s.tokenOwner newId (some escrowAddr)
    balance := s.balance + v
    events := s.events ++ [Ev.created newId c escrowAddr p false] }

/-- listMarketItem: nonReentrant; requires the caller to own the token
(ownerOf reverts on a nonexistent token), price positive, exact fee payment,
and the item not already listed; then overwrites the record wholesale and
moves the token into escrow. -/
def stepList (s : LedgerState) (c id p v : Nat) : Except Err LedgerState :=
  if s.locked = true then .error .state
  else if s.tokenOwner id = none then .error .state
  else if s.tokenOwner id ≠ some c then .error .authorization
  else if p = 0 then .error .validation
  else if v ≠ s.listingPrice then .error .validation
  else if (s.items id).listed = true then .error .state
  else .ok { s with
    items := upd s.items id ⟨id, c, escrowAddr, p, false, true⟩
    tokenOwner := upd s.tokenOwner id (some escrowAddr)
    balance := s.balance + v
    events := s.events ++ [Ev.listedEv id c p] }

/-- delistMarketItem: nonReentrant; requires caller to be the recorded seller,
the item listed and not sold; clears the listed flag, hands the record owner
and the token back to the caller.  The ERC721 transfer out of escrow fails if
the contract does not actually hold the token or the receiver is zero. -/
def stepDelist (s : LedgerState) (c id : Nat) : Except Err LedgerState :=
  if s.locked = true then .error .state
  else if (s.items id).seller ≠ c then .error .authorization
  else if (s.items id).listed = false then .error .state
  else if (s.items id).sold = true then .error .state
  else if s.tokenOwner id ≠ some escrowAddr then .error .transfer
  else if c = 0 then .error .transfer
  else .ok { s with
    items := upd s.items id { s.items id with listed := false, owner := c }
    tokenOwner := upd s.tokenOwner id (some c)
    events := s.events ++ [Ev.delistedEv id c] }

/-- createMarketSale: nonReentrant; checks exact payment, listed, not sold,
buyer is not the seller; then records the sale, transfers the token out of
escrow, pays the configured listing fee to the platform owner and the full
payment to the seller.  At function entry the contract balance already
includes msg.value; each currency transfer requires the balance to cover it,
otherwise the whole sale reverts (TransferError). -/
def stepBuy (s : LedgerState) (c id v : Nat) : Except Err LedgerState :=
  if s.locked = true then .error .state
  else
    let it := s.items id
    if v ≠ it.price then .error .validation
    else if it.listed = false then .error .state
    else if it.sold = true then .error .state
    else if it.seller = c then .error .authorization
    else if s.tokenOwner id ≠ some escrowAddr then .error .transfer
    else if c = 0 then .error .transfer
    else if s.balance + v < s.listingPrice then .error .transfer
    else if s.balance + v - s.listingPrice < v then .error .transfer
    else
      let pay1 := upd s.payouts platformAddr (s.payouts platformAddr + s.listingPrice)
      .ok { s with
        items := upd s.items id { it with owner := c, sold := true, listed := false }
        itemsSold := s.itemsSold + 1
        tokenOwner := upd s.tokenOwner id (some c)
        balance := s.balance + v - s.listingPrice - v
        payouts := upd pay1 it.seller (pay1 it.seller + v)
        events := s.events ++ [Ev.soldEv id it.seller c it.price] }

/-- updateMarketItemPrice: not guarded; requires caller to be the seller,
item listed and unsold, new price positive; mutates only the price field and
emits no event. -/
def stepSetPrice (s : LedgerState) (c id p : Nat) : Except Err LedgerState :=
  if (s.items id).seller ≠ c then .error .authorization
  else if (s.items id).listed = false then .error .state
  else if (s.items id).sold = true then .error .state
  else if p = 0 then .error .validation
  else .ok { s with items := upd s.items id { s.items id with price := p } }

/-- updateListingPrice: onlyOwner. -/
def stepSetFee (s : LedgerState) (c f : Nat) : Except Err LedgerState :=
  if c ≠ platformAddr then .error .authorization
  else .ok { s with listingPrice := f }

/-- withdraw: onlyOwner; sweeps the entire contract balance to the platform
owner, failing when the balance is zero. -/
def stepWithdraw (s : LedgerState) (c : Nat) : Except Err LedgerState :=
  if c ≠ platformAddr then .error .authorization
  else if s.balance = 0 then .error .state
  else .ok { s with
    balance := 0
    payouts := upd s.payouts platformAddr (s.payouts platformAddr + s.balance) }

/-- emergencyTransfer: onlyOwner; requires the contract itself to hold the
token, force-transfers it to the given address and deletes the MarketItem
record (resetting it to the zero value). -/
def stepEmergency (s : LedgerState) (c id toA : Nat) : Except Err LedgerState :=
  if c ≠ platformAddr then .error .authorization
  else if s.tokenOwner id ≠ some escrowAddr then .error .state
  else if toA = 0 then .error .transfer
  else .ok { s with
    tokenOwner := upd s.tokenOwner id (some toA)
    items := upd s.items id defaultItem }

/-- One transaction against the ledger. -/
def step (s : LedgerState) : Op → Except Err LedgerState
  | .mint c u p v => stepMint s c u p v
  | .list c id p v => stepList s c id p v
  | .delist c id => stepDelist s c id
  | .buy c id v => stepBuy s c id v
  | .setPrice c id p => stepSetPrice s c id p
  | .setFee c f => stepSetFee s c f
  | .withdrawOp c => stepWithdraw s c
  | .emergency c id toA => stepEmergency s c id toA

/-- The state after a transaction: a reverted transaction leaves the state
unchanged. -/
def stepState (s : LedgerState) (op : Op) : LedgerState :=
  match step s op with
  | .ok t => t
  | .error _ => s

/-- Whether a transaction succeeds. -/
def stepOk (s : LedgerState) (op : Op) : Bool :=
  match step s op with
  | .ok _ => true
  | .error _ => false

/-- Running a sequence of transactions. -/
def run (s : LedgerState) (ops : List Op) : LedgerState :=
  ops.foldl stepState s

/-- A trace is honest when no transaction's sender is the contract's own
address: the contract never initiates a transaction against itself (it has no
self-calling code path), so every reachable on-chain state arises from such a
trace. -/
def HonestOps (ops : List Op) : Prop :=
  ∀ op ∈ ops, opCaller op ≠ escrowAddr

instance : DecidablePred HonestOps := fun ops =>
  List.decidableBAll (fun op => opCaller op ≠ escrowAddr) ops

end NFTM


namespace NFTM

/-- The post-state of a successful createToken. -/
def mintSucc (s : LedgerState) (c : Nat) (u : String) (p v : Nat) : LedgerState :=
  { s with
    tokenIds := s.tokenIds + 1
    uris := upd s.uris (s.tokenIds + 1) u
    items := upd s.items (s.tokenIds + 1) ⟨s.tokenIds + 1, c, escrowAddr, p, false, true⟩
    tokenOwner := upd s.tokenOwner (s.tokenIds + 1) (some escrowAddr)
    balance := s.balance + v
    events := s.events ++ [Ev.created (s.tokenIds + 1) c escrowAddr p false] }

/-- The post-state of a successful listMarketItem. -/
def listSucc (s : LedgerState) (c id p v : Nat) : LedgerState :=
  { s with
    items := upd s.items id ⟨id, c, escrowAddr, p, false, true⟩
    tokenOwner := upd s.tokenOwner id (some escrowAddr)
    balance := s.balance + v
    events := s.events ++ [Ev.listedEv id c p] }

/-- The post-state of a successful delistMarketItem. -/
def delistSucc (s : LedgerState) (c id : Nat) : LedgerState :=
  { s with
    items := upd s.items id { s.items id with listed := false, owner := c }
    tokenOwner := upd s.tokenOwner id (some c)
    events := s.events ++ [Ev.delistedEv id c] }

/-- The post-state of a successful createMarketSale. -/
def buySucc (s : LedgerState) (c id v : Nat) : LedgerState :=
  let it := s.items id
  let pay1 := upd s.payouts platformAddr (s.payouts platformAddr + s.listingPrice)
  { s with
    items := upd s.items id { it with owner := c, sold := true, listed := false }
    itemsSold := s.itemsSold + 1
    tokenOwner := upd s.tokenOwner id (some c)
    balance := s.balance + v - s.listingPrice - v
    payouts := upd pay1 it.seller (pay1 it.seller + v)
    events := s.events ++ [Ev.soldEv id it.seller c it.price] }

/-- The post-state of a successful updateMarketItemPrice. -/
def setPriceSucc (s : LedgerState) (id p : Nat) : LedgerState :=
  { s with items := upd s.items id { s.items id with price := p } }

/-- Helper: a Bool that is not false is true. -/
theorem bool_ne_false {b : Bool} (h : ¬(b = false)) : b = true := by
  cases b <;> simp_all

/-- Helper: a Bool that is not true is false. -/
theorem bool_ne_true {b : Bool} (h : ¬(b = true)) : b = false := by
  cases b <;> simp_all

/-- Inversion for createToken: a success pins down all preconditions and the
post-state. -/
theorem stepMint_ok_iff (s : LedgerState) (c : Nat) (u : String) (p v : Nat)
    (t : LedgerState) :
    stepMint s c u p v = Except.ok t ↔
      c ≠ 0 ∧ s.tokenOwner (s.tokenIds + 1) = none ∧ p ≠ 0 ∧ v = s.listingPrice ∧
        t = mintSucc s c u p v := by
  constructor
  · intro h
    simp only [stepMint] at h
    split_ifs at h with h1 h2 h3 h4 <;> try exact Except.noConfusion h
    exact ⟨h1, not_not.mp h2, h3, not_not.mp h4, (Except.ok.inj h).symm⟩
  · rintro ⟨h1, h2, h3, h4, ht⟩
    subst ht
    subst h4
    simp [stepMint, mintSucc, h1, h2, h3]

/-- Inversion for listMarketItem. -/
theorem stepList_ok_iff (s : LedgerState) (c id p v : Nat) (t : LedgerState) :
    stepList s c id p v = Except.ok t ↔
      s.locked = false ∧ s.tokenOwner id = some c ∧ p ≠ 0 ∧ v = s.listingPrice ∧
        (s.items id).listed = false ∧ t = listSucc s c id p v := by
  constructor
  · intro h
    simp only [stepList] at h
    split_ifs at h with h1 h2 h3 h4 h5 h6 <;> try exact Except.noConfusion h
    exact ⟨bool_ne_true h1, not_not.mp h3, h4, not_not.mp h5, bool_ne_true h6,
      (Except.ok.inj h).symm⟩
  · rintro ⟨h1, h2, h3, h4, h5, ht⟩
    subst ht
    subst h4
    simp [stepList, listSucc, h1, h2, h3, h5]

/-- Inversion for delistMarketItem. -/
theorem stepDelist_ok_iff (s : LedgerState) (c id : Nat) (t : LedgerState) :
    stepDelist s c id = Except.ok t ↔
      s.locked = false ∧ (s.items id).seller = c ∧ (s.items id).listed = true ∧
        (s.items id).sold = false ∧ s.tokenOwner id = some escrowAddr ∧ c ≠ 0 ∧
        t = delistSucc s c id := by
  constructor
  · intro h
    simp only [stepDelist] at h
    split_ifs at h with h1 h2 h3 h4 h5 h6 <;> try exact Except.noConfusion h
    exact ⟨bool_ne_true h1, not_not.mp h2, bool_ne_false h3, bool_ne_true h4,
      not_not.mp h5, h6, (Except.ok.inj h).symm⟩
  · rintro ⟨h1, h2, h3, h4, h5, h6, ht⟩
    subst ht
    simp [stepDelist, delistSucc, h1, h2, h3, h4, h5, h6]

/-- Inversion for createMarketSale. -/
theorem stepBuy_ok_iff (s : LedgerState) (c id v : Nat) (t : LedgerState) :
    stepBuy s c id v = Except.ok t ↔
      s.locked = false ∧ v = (s.items id).price ∧ (s.items id).listed = true ∧
        (s.items id).sold = false ∧ (s.items id).seller ≠ c ∧
        s.tokenOwner id = some escrowAddr ∧ c ≠ 0 ∧
        s.listingPrice ≤ s.balance ∧ t = buySucc s c id v := by
  constructor
  · intro h
    simp only [stepBuy] at h
    split_ifs at h with h1 h2 h3 h4 h5 h6 h7 h8 h9 <;> try exact Except.noConfusion h
    refine ⟨bool_ne_true h1, not_not.mp h2, bool_ne_false h3, bool_ne_true h4, h5,
      not_not.mp h6, h7, by omega, (Except.ok.inj h).symm⟩
  · rintro ⟨h1, h2, h3, h4, h5, h6, h7, h8, ht⟩
    subst ht
    subst h2
    simp only [stepBuy, buySucc]
    rw [if_neg (by simp [h1]), if_neg (not_not_intro rfl), if_neg (by simp [h3]),
      if_neg (by simp [h4]), if_neg h5, if_neg (not_not_intro h6), if_neg h7,
      if_neg (by omega), if_neg (by omega)]

/-- Inversion for updateMarketItemPrice. -/
theorem stepSetPrice_ok_iff (s : LedgerState) (c id p : Nat) (t : LedgerState) :
    stepSetPrice s c id p = Except.ok t ↔
      (s.items id).seller = c ∧ (s.items id).listed = true ∧
        (s.items id).sold = false ∧ p ≠ 0 ∧ t = setPriceSucc s id p := by
  constructor
  · intro h
    simp only [stepSetPrice] at h
    split_ifs at h with h1 h2 h3 h4 <;> try exact Except.noConfusion h
    exact ⟨not_not.mp h1, bool_ne_false h2, bool_ne_true h3, h4,
      (Except.ok.inj h).symm⟩
  · rintro ⟨h1, h2, h3, h4, ht⟩
    subst ht
    simp [stepSetPrice, setPriceSucc, h1, h2, h3, h4]

/-- Inversion for updateListingPrice. -/
theorem stepSetFee_ok_iff (s : LedgerState) (c f : Nat) (t : LedgerState) :
    stepSetFee s c f = Except.ok t ↔
      c = platformAddr ∧ t = { s with listingPrice := f } := by
  constructor
  · intro h
    simp only [stepSetFee] at h
    split_ifs at h with h1 <;> try exact Except.noConfusion h
    exact ⟨not_not.mp h1, (Except.ok.inj h).symm⟩
  · rintro ⟨h1, ht⟩
    subst ht
    simp [stepSetFee, h1]

/-- Inversion for withdraw. -/
theorem stepWithdraw_ok_iff (s : LedgerState) (c : Nat) (t : LedgerState) :
    stepWithdraw s c = Except.ok t ↔
      c = platformAddr ∧ s.balance ≠ 0 ∧
        t = { s with
          balance := 0
          payouts := upd s.payouts platformAddr (s.payouts platformAddr + s.balance) } := by
  constructor
  · intro h
    simp only [stepWithdraw] at h
    split_ifs at h with h1 h2 <;> try exact Except.noConfusion h
    exact ⟨not_not.mp h1, h2, (Except.ok.inj h).symm⟩
  · rintro ⟨h1, h2, ht⟩
    subst ht
    simp [stepWithdraw, h1, h2]

/-- Inversion for emergencyTransfer. -/
theorem stepEmergency_ok_iff (s : LedgerState) (c id dest : Nat) (t : LedgerState) :
    stepEmergency s c id dest = Except.ok t ↔
      c = platformAddr ∧ s.tokenOwner id = some escrowAddr ∧ dest ≠ 0 ∧
        t = { s with
          tokenOwner := upd s.tokenOwner id (some dest)
          items := upd s.items id defaultItem } := by
  constructor
  · intro h
    simp only [stepEmergency] at h
    split_ifs at h with h1 h2 h3 <;> try exact Except.noConfusion h
    exact ⟨not_not.mp h1, not_not.mp h2, h3, (Except.ok.inj h).symm⟩
  · rintro ⟨h1, h2, h3, ht⟩
    subst ht
    simp [stepEmergency, h1, h2, h3]

/-- A reverted transaction leaves the ledger unchanged. -/
theorem stepState_of_error (s : LedgerState) (op : Op) (e : Err)
    (h : step s op = Except.error e) : stepState s op = s := by
  unfold stepState
  rw [h]

/-- A successful transaction moves to the returned state. -/
theorem stepState_of_ok (s : LedgerState) (op : Op) (t : LedgerState)
    (h : step s op = Except.ok t) : stepState s op = t := by
  unfold stepState
  rw [h]

/-- Running a cons. -/
theorem run_cons (s : LedgerState) (op : Op) (ops : List Op) :
    run s (op :: ops) = run (stepState s op) ops := rfl

/-- Running nil. -/
theorem run_nil (s : LedgerState) : run s [] = s := rfl

end NFTM

namespace NFTM

/-- upd at the written key. -/
theorem upd_eq {α : Type} (f : Nat → α) (k : Nat) (v : α) : upd f k v k = v := by
  simp [upd]

/-- upd away from the written key. -/
theorem upd_ne {α : Type} (f : Nat → α) (k : Nat) (v : α) (i : Nat) (h : i ≠ k) :
    upd f k v i = f i := by
  simp [upd, h]

/-- The state invariant maintained by every honest transaction sequence:
token 0 never exists, tokens past the counter do not exist and have no
record, a listed record's token sits in escrow, a sold record's token is not
in escrow, sold records are unlisted, and the record owner field equals the
escrow address exactly for listed records. -/
structure Inv1 (s : LedgerState) : Prop where
  bound0own : s.tokenOwner 0 = none
  hiItem : ∀ id, s.tokenIds < id → s.items id = defaultItem
  hiOwn : ∀ id, s.tokenIds < id → s.tokenOwner id = none
  listedOwn : ∀ id, (s.items id).listed = true → s.tokenOwner id = some escrowAddr
  soldOwn : ∀ id, (s.items id).sold = true → s.tokenOwner id ≠ some escrowAddr
  soldNotListed : ∀ id, (s.items id).sold = true → (s.items id).listed = false
  ownerIffListed : ∀ id, (s.items id).owner = escrowAddr ↔ (s.items id).listed = true

/-- A token with an owner has an id within the issued range. -/
theorem id_le_of_owned {s : LedgerState} (h : Inv1 s) {k : Nat}
    (hk : s.tokenOwner k ≠ none) : k ≤ s.tokenIds := by
  by_contra hgt
  push_neg at hgt
  exact hk (h.hiOwn k hgt)

/-- A token with an owner has a nonzero id. -/
theorem id_ne_zero_of_owned {s : LedgerState} (h : Inv1 s) {k : Nat}
    (hk : s.tokenOwner k ≠ none) : k ≠ 0 := by
  intro h0
  subst h0
  exact hk h.bound0own

/-- Inv1 only looks at the counter, the record map and the ownership map. -/
theorem inv1_congr {s t : LedgerState} (h : Inv1 s) (h1 : t.tokenIds = s.tokenIds)
    (h2 : t.items = s.items) (h3 : t.tokenOwner = s.tokenOwner) : Inv1 t := by
  refine ⟨?_, ?_, ?_, ?_, ?_, ?_, ?_⟩ <;> simp only [h1, h2, h3] <;>
    first
      | exact h.bound0own
      | exact h.hiItem
      | exact h.hiOwn
      | exact h.listedOwn
      | exact h.soldOwn
      | exact h.soldNotListed
      | exact h.ownerIffListed

/-- Inv1 is preserved by any transition that rewrites the record and the
ownership of a single existing token, provided the new record and owner obey
the pointwise invariants. -/
theorem inv1_of_point (s t : LedgerState) (k : Nat) (itemK : MarketItem) (ownK : Nat)
    (h : Inv1 s)
    (hti : t.tokenIds = s.tokenIds)
    (hit : t.items = upd s.items k itemK)
    (hto : t.tokenOwner = upd s.tokenOwner k (some ownK))
    (hk0 : k ≠ 0) (hkn : k ≤ s.tokenIds)
    (hlo : itemK.listed = true → ownK = escrowAddr)
    (hso : itemK.sold = true → ownK ≠ escrowAddr)
    (hsl : itemK.sold = true → itemK.listed = false)
    (hoi : itemK.owner = escrowAddr ↔ itemK.listed = true) : Inv1 t := by
  refine ⟨?_, ?_, ?_, ?_, ?_, ?_, ?_⟩
  · rw [hto, upd_ne _ _ _ _ (by omega)]
    exact h.bound0own
  · intro id hid
    rw [hti] at hid
    rw [hit, upd_ne _ _ _ _ (by omega)]
    exact h.hiItem id hid
  · intro id hid
    rw [hti] at hid
    rw [hto, upd_ne _ _ _ _ (by omega)]
    exact h.hiOwn id hid
  · intro id hl
    rw [hit] at hl
    rw [hto]
    by_cases hk : id = k
    · subst hk
      rw [upd_eq] at hl
      rw [upd_eq, hlo hl]
    · rw [upd_ne _ _ _ _ hk] at hl
      rw [upd_ne _ _ _ _ hk]
      exact h.listedOwn id hl
  · intro id hs
    rw [hit] at hs
    rw [hto]
    by_cases hk : id = k
    · subst hk
      rw [upd_eq] at hs
      rw [upd_eq]
      simp [hso hs]
    · rw [upd_ne _ _ _ _ hk] at hs
      rw [upd_ne _ _ _ _ hk]
      exact h.soldOwn id hs
  · intro id hs
    rw [hit] at hs ⊢
    by_cases hk : id = k
    · subst hk
      rw [upd_eq] at hs ⊢
      exact hsl hs
    · rw [upd_ne _ _ _ _ hk] at hs ⊢
      exact h.soldNotListed id hs
  · intro id
    rw [hit]
    by_cases hk : id = k
    · subst hk
      rw [upd_eq]
      exact hoi
    · rw [upd_ne _ _ _ _ hk]
      exact h.ownerIffListed id

/-- The invariant holds at deployment. -/
theorem inv1_init : Inv1 initState := by
  refine ⟨rfl, ?_, ?_, ?_, ?_, ?_, ?_⟩ <;> intro id <;>
    simp [initState, defaultItem, escrowAddr]

end NFTM

namespace NFTM

/-- Inv1 is preserved by createToken. -/
theorem inv1_mint (s : LedgerState) (c : Nat) (u : String) (p v : Nat) (h : Inv1 s) :
    Inv1 (stepState s (Op.mint c u p v)) := by
  rcases hst : step s (Op.mint c u p v) with e | t
  · rw [stepState_of_error _ _ _ hst]
    exact h
  · rw [stepState_of_ok _ _ _ hst]
    obtain ⟨hc0, hfresh, hp, hv, ht⟩ := (stepMint_ok_iff s c u p v t).mp hst
    subst ht
    constructor
    · simp only [mintSucc]
      rw [upd_ne _ _ _ _ (by omega)]
      exact h.bound0own
    · intro id hid
      simp only [mintSucc] at hid ⊢
      rw [upd_ne _ _ _ _ (by omega)]
      exact h.hiItem id (by omega)
    · intro id hid
      simp only [mintSucc] at hid ⊢
      rw [upd_ne _ _ _ _ (by omega)]
      exact h.hiOwn id (by omega)
    · intro id hl
      simp only [mintSucc] at hl ⊢
      by_cases hk : id = s.tokenIds + 1
      · subst hk
        rw [upd_eq]
      · rw [upd_ne _ _ _ _ hk] at hl
        rw [upd_ne _ _ _ _ hk]
        exact h.listedOwn id hl
    · intro id hs
      simp only [mintSucc] at hs ⊢
      by_cases hk : id = s.tokenIds + 1
      · subst hk
        rw [upd_eq] at hs
        simp at hs
      · rw [upd_ne _ _ _ _ hk] at hs
        rw [upd_ne _ _ _ _ hk]
        exact h.soldOwn id hs
    · intro id hs
      simp only [mintSucc] at hs ⊢
      by_cases hk : id = s.tokenIds + 1
      · subst hk
        rw [upd_eq] at hs
        simp at hs
      · rw [upd_ne _ _ _ _ hk] at hs ⊢
        exact h.soldNotListed id hs
    · intro id
      simp only [mintSucc]
      by_cases hk : id = s.tokenIds + 1
      · subst hk
        rw [upd_eq]
        simp
      · rw [upd_ne _ _ _ _ hk]
        exact h.ownerIffListed id

/-- Inv1 is preserved by listMarketItem. -/
theorem inv1_list (s : LedgerState) (c id p v : Nat) (h : Inv1 s) :
    Inv1 (stepState s (Op.list c id p v)) := by
  rcases hst : step s (Op.list c id p v) with e | t
  · rw [stepState_of_error _ _ _ hst]
    exact h
  · rw [stepState_of_ok _ _ _ hst]
    obtain ⟨hl, ho, hp, hv, hlst, ht⟩ := (stepList_ok_iff s c id p v t).mp hst
    subst ht
    exact inv1_of_point s _ id ⟨id, c, escrowAddr, p, false, true⟩ escrowAddr h rfl rfl rfl
      (id_ne_zero_of_owned h (by rw [ho]; simp))
      (id_le_of_owned h (by rw [ho]; simp))
      (fun _ => rfl) (by simp) (by simp) (by simp)

/-- Inv1 is preserved by delistMarketItem when the caller is an external
account. -/
theorem inv1_delist (s : LedgerState) (c id : Nat) (h : Inv1 s)
    (hc : c ≠ escrowAddr) : Inv1 (stepState s (Op.delist c id)) := by
  rcases hst : step s (Op.delist c id) with e | t
  · rw [stepState_of_error _ _ _ hst]
    exact h
  · rw [stepState_of_ok _ _ _ hst]
    obtain ⟨hl, hsel, hlst, hsold, hto, hc0, ht⟩ := (stepDelist_ok_iff s c id t).mp hst
    subst ht
    exact inv1_of_point s _ id { s.items id with listed := false, owner := c } c h rfl rfl rfl
      (id_ne_zero_of_owned h (by rw [hto]; simp))
      (id_le_of_owned h (by rw [hto]; simp))
      (by simp) (by simp [hsold]) (by simp [hsold]) (by simp [hc])

/-- Inv1 is preserved by createMarketSale when the caller is an external
account. -/
theorem inv1_buy (s : LedgerState) (c id v : Nat) (h : Inv1 s)
    (hc : c ≠ escrowAddr) : Inv1 (stepState s (Op.buy c id v)) := by
  rcases hst : step s (Op.buy c id v) with e | t
  · rw [stepState_of_error _ _ _ hst]
    exact h
  · rw [stepState_of_ok _ _ _ hst]
    obtain ⟨hl, hv, hlst, hsold, hsel, hto, hc0, hbal, ht⟩ := (stepBuy_ok_iff s c id v t).mp hst
    subst ht
    exact inv1_of_point s _ id { s.items id with owner := c, sold := true, listed := false } c
      h rfl rfl rfl
      (id_ne_zero_of_owned h (by rw [hto]; simp))
      (id_le_of_owned h (by rw [hto]; simp))
      (by simp) (fun _ => hc) (fun _ => rfl) (by simp [hc])

/-- Inv1 is preserved by updateMarketItemPrice. -/
theorem inv1_setPrice (s : LedgerState) (c id p : Nat) (h : Inv1 s) :
    Inv1 (stepState s (Op.setPrice c id p)) := by
  rcases hst : step s (Op.setPrice c id p) with e | t
  · rw [stepState_of_error _ _ _ hst]
    exact h
  · rw [stepState_of_ok _ _ _ hst]
    obtain ⟨hsel, hlst, hsold, hp, ht⟩ := (stepSetPrice_ok_iff s c id p t).mp hst
    subst ht
    have hesc : s.tokenOwner id = some escrowAddr := h.listedOwn id hlst
    refine inv1_of_point s _ id { s.items id with price := p } escrowAddr h rfl rfl ?_
      (id_ne_zero_of_owned h (by rw [hesc]; simp))
      (id_le_of_owned h (by rw [hesc]; simp))
      (fun _ => rfl) (by simp [hsold]) (by simp [hsold]) (h.ownerIffListed id)
    funext i
    by_cases hk : i = id
    · subst hk
      rw [upd_eq]
      exact hesc
    · rw [upd_ne _ _ _ _ hk]
      rfl

/-- Inv1 is preserved by updateListingPrice. -/
theorem inv1_setFee (s : LedgerState) (c f : Nat) (h : Inv1 s) :
    Inv1 (stepState s (Op.setFee c f)) := by
  rcases hst : step s (Op.setFee c f) with e | t
  · rw [stepState_of_error _ _ _ hst]
    exact h
  · rw [stepState_of_ok _ _ _ hst]
    obtain ⟨hcp, ht⟩ := (stepSetFee_ok_iff s c f t).mp hst
    subst ht
    exact inv1_congr h rfl rfl rfl

/-- Inv1 is preserved by withdraw. -/
theorem inv1_withdraw (s : LedgerState) (c : Nat) (h : Inv1 s) :
    Inv1 (stepState s (Op.withdrawOp c)) := by
  rcases hst : step s (Op.withdrawOp c) with e | t
  · rw [stepState_of_error _ _ _ hst]
    exact h
  · rw [stepState_of_ok _ _ _ hst]
    obtain ⟨hcp, hb, ht⟩ := (stepWithdraw_ok_iff s c t).mp hst
    subst ht
    exact inv1_congr h rfl rfl rfl

/-- Inv1 is preserved by emergencyTransfer. -/
theorem inv1_emergency (s : LedgerState) (c id dest : Nat) (h : Inv1 s) :
    Inv1 (stepState s (Op.emergency c id dest)) := by
  rcases hst : step s (Op.emergency c id dest) with e | t
  · rw [stepState_of_error _ _ _ hst]
    exact h
  · rw [stepState_of_ok _ _ _ hst]
    obtain ⟨hcp, hto, hd0, ht⟩ := (stepEmergency_ok_iff s c id dest t).mp hst
    subst ht
    exact inv1_of_point s _ id defaultItem dest h rfl rfl rfl
      (id_ne_zero_of_owned h (by rw [hto]; simp))
      (id_le_of_owned h (by rw [hto]; simp))
      (by simp [defaultItem]) (by simp [defaultItem]) (by simp [defaultItem])
      (by simp [defaultItem, escrowAddr])

/-- Inv1 is preserved by every transaction from an external caller. -/
theorem inv1_stepState (s : LedgerState) (op : Op) (h : Inv1 s)
    (hc : opCaller op ≠ escrowAddr) : Inv1 (stepState s op) := by
  cases op with
  | mint c u p v => exact inv1_mint s c u p v h
  | list c id p v => exact inv1_list s c id p v h
  | delist c id => exact inv1_delist s c id h hc
  | buy c id v => exact inv1_buy s c id v h hc
  | setPrice c id p => exact inv1_setPrice s c id p h
  | setFee c f => exact inv1_setFee s c f h
  | withdrawOp c => exact inv1_withdraw s c h
  | emergency c id dest => exact inv1_emergency s c id dest h

/-- Inv1 holds along every honest transaction sequence. -/
theorem inv1_run (ops : List Op) (s : LedgerState) (h : Inv1 s)
    (hops : HonestOps ops) : Inv1 (run s ops) := by
  induction ops generalizing s with
  | nil => exact h
  | cons op rest ih =>
    rw [run_cons]
    exact ih (stepState s op)
      (inv1_stepState s op h (hops op (List.mem_cons_self op rest)))
      (fun o ho => hops o (List.mem_cons_of_mem op ho))

end NFTM

namespace NFTM

/-- Number of record ids in 1..n whose sold flag is set. -/
def countSold (f : Nat → MarketItem) : Nat → Nat
  | 0 => 0
  | n + 1 => countSold f n + (if (f (n + 1)).sold = true then 1 else 0)

/-- Number of record ids in 1..n whose listed flag is set. -/
def countListed (f : Nat → MarketItem) : Nat → Nat
  | 0 => 0
  | n + 1 => countListed f n + (if (f (n + 1)).listed = true then 1 else 0)

/-- countSold is bounded by the scan length. -/
theorem countSold_le (f : Nat → MarketItem) (n : Nat) : countSold f n ≤ n := by
  induction n with
  | zero => simp [countSold]
  | succ n ih =>
    simp only [countSold]
    split_ifs <;> omega

/-- countSold only depends on the sold flags in range. -/
theorem countSold_congr (f g : Nat → MarketItem) (n : Nat)
    (h : ∀ i, 0 < i → i ≤ n → (f i).sold = (g i).sold) :
    countSold f n = countSold g n := by
  induction n with
  | zero => rfl
  | succ n ih =>
    simp only [countSold]
    rw [ih (fun i h1 h2 => h i h1 (by omega)), h (n + 1) (by omega) (by omega)]

/-- Updating a record beyond the scan range leaves countSold unchanged. -/
theorem countSold_upd_out (f : Nat → MarketItem) (k : Nat) (v : MarketItem) (n : Nat)
    (h : n < k) : countSold (upd f k v) n = countSold f n := by
  refine countSold_congr _ _ n (fun i h1 h2 => ?_)
  rw [upd_ne _ _ _ _ (by omega)]

/-- Updating a record without changing its sold flag leaves countSold
unchanged. -/
theorem countSold_upd_keep (f : Nat → MarketItem) (k : Nat) (v : MarketItem) (n : Nat)
    (h : v.sold = (f k).sold) : countSold (upd f k v) n = countSold f n := by
  refine countSold_congr _ _ n (fun i h1 h2 => ?_)
  by_cases hk : i = k
  · subst hk
    rw [upd_eq, h]
  · rw [upd_ne _ _ _ _ hk]

/-- Setting the sold flag of an in-range unsold record increments countSold. -/
theorem countSold_upd_flip (f : Nat → MarketItem) (k : Nat) (v : MarketItem) (n : Nat)
    (h1 : 0 < k) (h2 : k ≤ n) (hf : (f k).sold = false) (hv : v.sold = true) :
    countSold (upd f k v) n = countSold f n + 1 := by
  induction n with
  | zero => omega
  | succ n ih =>
    simp only [countSold]
    by_cases hk : k = n + 1
    · subst hk
      rw [countSold_upd_out _ _ _ _ (by omega), upd_eq, hv, hf]
      simp
    · rw [upd_ne _ _ _ _ (by omega), ih (by omega)]
      split_ifs <;> omega

/-- The sold counter agrees with the number of sold records. -/
def SoldAcc (s : LedgerState) : Prop :=
  s.itemsSold = countSold s.items s.tokenIds

/-- The guard under which one transaction cannot relist an already-sold
record: either the transaction is not a successful listMarketItem, or the
record it touches is unsold. -/
def relistGuard (s : LedgerState) : Op → Bool
  | .list c id p v => !(stepOk s (Op.list c id p v) && (s.items id).sold)
  | _ => true

/-- No transaction in the trace relists a sold record. -/
def noRelistSold : LedgerState → List Op → Bool
  | _, [] => true
  | s, op :: rest => relistGuard s op && noRelistSold (stepState s op) rest

/-- SoldAcc is preserved by one honest guarded transaction. -/
theorem soldAcc_step (s : LedgerState) (op : Op) (h : Inv1 s) (hacc : SoldAcc s)
    (hg : relistGuard s op = true) : SoldAcc (stepState s op) := by
  cases op with
  | mint c u p v =>
    rcases hst : step s (Op.mint c u p v) with e | t
    · rw [stepState_of_error _ _ _ hst]
      exact hacc
    · rw [stepState_of_ok _ _ _ hst]
      obtain ⟨hc0, hfresh, hp, hv, ht⟩ := (stepMint_ok_iff s c u p v t).mp hst
      subst ht
      show s.itemsSold = countSold (upd s.items (s.tokenIds + 1) _) (s.tokenIds + 1)
      simp only [countSold]
      rw [countSold_upd_out _ _ _ _ (by omega), upd_eq]
      simpa using hacc
  | list c id p v =>
    rcases hst : step s (Op.list c id p v) with e | t
    · rw [stepState_of_error _ _ _ hst]
      exact hacc
    · rw [stepState_of_ok _ _ _ hst]
      obtain ⟨hl, ho, hp, hv, hlst, ht⟩ := (stepList_ok_iff s c id p v t).mp hst
      have hsold : (s.items id).sold = false := by
        simp only [relistGuard, Bool.not_eq_true', Bool.and_eq_false_iff] at hg
        rcases hg with hg | hg
        · exfalso
          have : stepOk s (Op.list c id p v) = true := by
            simp [stepOk, hst]
          rw [this] at hg
          exact Bool.noConfusion hg
        · exact hg
      subst ht
      show s.itemsSold = countSold (upd s.items id _) s.tokenIds
      rw [countSold_upd_keep _ _ _ _ (by simp [hsold])]
      exact hacc
  | delist c id =>
    rcases hst : step s (Op.delist c id) with e | t
    · rw [stepState_of_error _ _ _ hst]
      exact hacc
    · rw [stepState_of_ok _ _ _ hst]
      obtain ⟨hl, hsel, hlst, hsold, hto, hc0, ht⟩ := (stepDelist_ok_iff s c id t).mp hst
      subst ht
      show s.itemsSold = countSold (upd s.items id _) s.tokenIds
      rw [countSold_upd_keep _ _ _ _ (by rfl)]
      exact hacc
  | buy c id v =>
    rcases hst : step s (Op.buy c id v) with e | t
    · rw [stepState_of_error _ _ _ hst]
      exact hacc
    · rw [stepState_of_ok _ _ _ hst]
      obtain ⟨hl, hv, hlst, hsold, hsel, hto, hc0, hbal, ht⟩ := (stepBuy_ok_iff s c id v t).mp hst
      subst ht
      show s.itemsSold + 1 = countSold (upd s.items id _) s.tokenIds
      rw [countSold_upd_flip _ _ _ _ ?_ ?_ hsold (by rfl)]
      · rw [hacc]
      · have := id_ne_zero_of_owned h (by rw [hto]; simp)
        omega
      · exact id_le_of_owned h (by rw [hto]; simp)
  | setPrice c id p =>
    rcases hst : step s (Op.setPrice c id p) with e | t
    · rw [stepState_of_error _ _ _ hst]
      exact hacc
    · rw [stepState_of_ok _ _ _ hst]
      obtain ⟨hsel, hlst, hsold, hp, ht⟩ := (stepSetPrice_ok_iff s c id p t).mp hst
      subst ht
      show s.itemsSold = countSold (upd s.items id _) s.tokenIds
      rw [countSold_upd_keep _ _ _ _ (by rfl)]
      exact hacc
  | setFee c f =>
    rcases hst : step s (Op.setFee c f) with e | t
    · rw [stepState_of_error _ _ _ hst]
      exact hacc
    · rw [stepState_of_ok _ _ _ hst]
      obtain ⟨hcp, ht⟩ := (stepSetFee_ok_iff s c f t).mp hst
      subst ht
      exact hacc
  | withdrawOp c =>
    rcases hst : step s (Op.withdrawOp c) with e | t
    · rw [stepState_of_error _ _ _ hst]
      exact hacc
    · rw [stepState_of_ok _ _ _ hst]
      obtain ⟨hcp, hb, ht⟩ := (stepWithdraw_ok_iff s c t).mp hst
      subst ht
      exact hacc
  | emergency c id dest =>
    rcases hst : step s (Op.emergency c id dest) with e | t
    · rw [stepState_of_error _ _ _ hst]
      exact hacc
    · rw [stepState_of_ok _ _ _ hst]
      obtain ⟨hcp, hto, hd0, ht⟩ := (stepEmergency_ok_iff s c id dest t).mp hst
      have hsold : (s.items id).sold = false := by
        by_contra hb
        exact (h.soldOwn id (bool_ne_false hb)) hto
      subst ht
      show s.itemsSold = countSold (upd s.items id defaultItem) s.tokenIds
      rw [countSold_upd_keep _ _ _ _ (by simp [defaultItem, hsold])]
      exact hacc

/-- SoldAcc holds along every honest trace that never relists a sold
record. -/
theorem soldAcc_run (ops : List Op) (s : LedgerState) (h : Inv1 s) (hacc : SoldAcc s)
    (hops : HonestOps ops) (hnr : noRelistSold s ops = true) : SoldAcc (run s ops) := by
  induction ops generalizing s with
  | nil => exact hacc
  | cons op rest ih =>
    rw [run_cons]
    simp only [noRelistSold, Bool.and_eq_true] at hnr
    exact ih (stepState s op)
      (inv1_stepState s op h (hops op (List.mem_cons_self op rest)))
      (soldAcc_step s op h hacc hnr.1)
      (fun o ho => hops o (List.mem_cons_of_mem op ho))
      hnr.2

end NFTM

namespace NFTM

/-- The filter used by fetchMarketItems: the record owner is the contract
itself and the listed flag is set. -/
def matchItem (it : MarketItem) : Bool :=
  (it.owner == escrowAddr) && it.listed

/-- The write loop of fetchMarketItems: walks the token ids, copying each
matching record into the next free slot of the preallocated array; a write
past the end of the array is the Solidity out-of-bounds panic, modelled as
none. -/
def fillLoop (f : Nat → MarketItem) : List Nat → List MarketItem → Nat → Option (List MarketItem × Nat)
  | [], arr, cur => some (arr, cur)
  | i :: rest, arr, cur =>
    if matchItem (f (i + 1)) = true then
      if cur < arr.length then fillLoop f rest (arr.set cur (f (i + 1))) (cur + 1)
      else none
    else fillLoop f rest arr cur

/-- fetchMarketItems: allocates an array of length tokenIds - itemsSold (the
subtraction underflow is the Solidity panic, modelled as none), then walks
ids 1..tokenIds copying matching records into it. -/
def fetchMarketItems (s : LedgerState) : Option (List MarketItem) :=
  if s.tokenIds < s.itemsSold then none
  else
    match fillLoop s.items (List.range s.tokenIds) (List.replicate (s.tokenIds - s.itemsSold) defaultItem) 0 with
    | some (arr, _) => some arr
    | none => none

/-- The sequence of matching records met while scanning the given ids in
order. -/
def scanOf (f : Nat → MarketItem) (idxs : List Nat) : List MarketItem :=
  (idxs.filter (fun i => matchItem (f (i + 1)))).map (fun i => f (i + 1))

/-- The listed records of the ledger in ascending tokenId order, exactly the
records fetchMarketItems tries to return. -/
def scanItems (s : LedgerState) : List MarketItem :=
  scanOf s.items (List.range s.tokenIds)

/-- scanOf on a cons. -/
theorem scanOf_cons (f : Nat → MarketItem) (i : Nat) (rest : List Nat) :
    scanOf f (i :: rest) =
      if matchItem (f (i + 1)) = true then f (i + 1) :: scanOf f rest
      else scanOf f rest := by
  simp only [scanOf, List.filter_cons]
  split_ifs <;> simp

/-- scanOf on an append. -/
theorem scanOf_append (f : Nat → MarketItem) (xs ys : List Nat) :
    scanOf f (xs ++ ys) = scanOf f xs ++ scanOf f ys := by
  simp [scanOf]

/-- Setting the slot right after a prefix inside a padded array. -/
theorem list_set_append (pre : List MarketItem) (d it : MarketItem) (k : Nat) :
    (pre ++ d :: List.replicate k d).set pre.length it =
      pre ++ it :: List.replicate k d := by
  induction pre with
  | nil => rfl
  | cons a l ih => simp [List.set, ih]

/-- Loop invariant of fillLoop: started on a prefix already filled with pre
and m free padded slots, it either fits all matching records and returns the
filled prefix plus leftover padding, or overflows and panics. -/
theorem fillLoop_spec (f : Nat → MarketItem) (idxs : List Nat) :
    ∀ (pre : List MarketItem) (m : Nat),
      fillLoop f idxs (pre ++ List.replicate m defaultItem) pre.length =
        if (scanOf f idxs).length ≤ m then
          some (pre ++ scanOf f idxs ++ List.replicate (m - (scanOf f idxs).length) defaultItem,
            pre.length + (scanOf f idxs).length)
        else none := by
  induction idxs with
  | nil =>
    intro pre m
    simp [fillLoop, scanOf]
  | cons i rest ih =>
    intro pre m
    rw [scanOf_cons]
    by_cases hm : matchItem (f (i + 1)) = true
    · rw [if_pos hm]
      simp only [fillLoop, hm, if_true]
      cases m with
      | zero =>
        rw [if_neg (by simp)]
        rw [if_neg (by simp)]
      | succ k =>
        rw [if_pos (by simp)]
        rw [show List.replicate (k + 1) defaultItem = defaultItem :: List.replicate k defaultItem from rfl]
        rw [list_set_append]
        rw [show pre ++ f (i + 1) :: List.replicate k defaultItem =
          (pre ++ [f (i + 1)]) ++ List.replicate k defaultItem by simp]
        rw [show pre.length + 1 = (pre ++ [f (i + 1)]).length by simp]
        rw [ih (pre ++ [f (i + 1)]) k]
        by_cases hlen : (scanOf f rest).length ≤ k
        · rw [if_pos hlen, if_pos (by simp; omega)]
          simp
          omega
        · rw [if_neg hlen, if_neg (by simp; omega)]
    · rw [if_neg hm]
      simp only [fillLoop, hm, if_false]
      exact ih pre m

/-- Characterization of fetchMarketItems when the array-length subtraction
does not underflow: it returns the listed records in ascending order padded
with zero-valued records, unless there are more matches than slots, in which
case it panics. -/
theorem fetch_spec (s : LedgerState) (h1 : s.itemsSold ≤ s.tokenIds) :
    fetchMarketItems s =
      if (scanItems s).length ≤ s.tokenIds - s.itemsSold then
        some (scanItems s ++
          List.replicate ((s.tokenIds - s.itemsSold) - (scanItems s).length) defaultItem)
      else none := by
  unfold fetchMarketItems
  rw [if_neg (by omega)]
  have hfl := fillLoop_spec s.items (List.range s.tokenIds) [] (s.tokenIds - s.itemsSold)
  simp only [List.nil_append, List.length_nil, Nat.zero_add] at hfl
  rw [hfl]
  by_cases hlen : (scanItems s).length ≤ s.tokenIds - s.itemsSold
  · rw [if_pos hlen]
    rw [show scanOf s.items (List.range s.tokenIds) = scanItems s from rfl]
    rw [if_pos hlen]
  · rw [if_neg hlen]
    rw [show scanOf s.items (List.range s.tokenIds) = scanItems s from rfl]
    rw [if_neg hlen]

end NFTM

namespace NFTM

/-- When the record owner field tracks the listed flag, the fetch filter is
just the listed flag. -/
theorem matchItem_eq_listed (it : MarketItem)
    (hoi : it.owner = escrowAddr ↔ it.listed = true) : matchItem it = it.listed := by
  cases hlist : it.listed
  · simp [matchItem, hlist]
  · simp [matchItem, hlist, hoi.mpr hlist]

/-- Under the owner-listed correspondence, the scan finds exactly the listed
records. -/
theorem scanOf_range_length (f : Nat → MarketItem) (n : Nat)
    (hoi : ∀ i, i < n → ((f (i + 1)).owner = escrowAddr ↔ (f (i + 1)).listed = true)) :
    (scanOf f (List.range n)).length = countListed f n := by
  induction n with
  | zero => simp [scanOf, countListed]
  | succ n ih =>
    rw [List.range_succ, scanOf_append]
    simp only [List.length_append]
    rw [ih (fun i hi => hoi i (by omega))]
    simp only [countListed]
    rw [show scanOf f [n] =
      if matchItem (f (n + 1)) = true then [f (n + 1)] else [] by
        rw [scanOf_cons]
        split_ifs <;> simp [scanOf]]
    rw [matchItem_eq_listed _ (hoi n (by omega))]
    cases hl : (f (n + 1)).listed <;> simp

/-- The scan of the ledger finds exactly the listed records. -/
theorem scanItems_length (s : LedgerState)
    (hoi : ∀ i, i < s.tokenIds →
      ((s.items (i + 1)).owner = escrowAddr ↔ (s.items (i + 1)).listed = true)) :
    (scanItems s).length = countListed s.items s.tokenIds :=
  scanOf_range_length s.items s.tokenIds hoi

/-- Listed and sold records are disjoint, so their counts fit in the scan
range. -/
theorem countListed_add_countSold_le (f : Nat → MarketItem) (n : Nat)
    (hd : ∀ i, i < n → (f (i + 1)).sold = true → (f (i + 1)).listed = false) :
    countListed f n + countSold f n ≤ n := by
  induction n with
  | zero => simp [countListed, countSold]
  | succ n ih =>
    simp only [countListed, countSold]
    have hle := ih (fun i hi => hd i (by omega))
    split_ifs with l1 l2 l2
    · rw [hd n (by omega) l2] at l1
      exact Bool.noConfusion l1
    · omega
    · omega
    · omega

/-- With one additional record that is neither listed nor sold, the counts
are strictly below the scan range. -/
theorem countListed_add_countSold_lt (f : Nat → MarketItem) :
    ∀ n k : Nat, (∀ i, i < n → (f (i + 1)).sold = true → (f (i + 1)).listed = false) →
      k < n → (f (k + 1)).sold = false → (f (k + 1)).listed = false →
      countListed f n + countSold f n < n := by
  intro n
  induction n with
  | zero =>
    intro k hd hk hs hl
    omega
  | succ n ih =>
    intro k hd hk hs hl
    simp only [countListed, countSold]
    by_cases hkn : k = n
    · subst hkn
      rw [hs, hl]
      have := countListed_add_countSold_le f k (fun i hi => hd i (by omega))
      simp
      omega
    · have hlt := ih k (fun i hi => hd i (by omega)) (by omega) hs hl
      split_ifs with l1 l2 l2
      · rw [hd n (by omega) l2] at l1
        exact Bool.noConfusion l1
      · omega
      · omega
      · omega

end NFTM

namespace NFTM

/-- An honest trace that mints one token, sells it, relists it through the
buyer and sells it again: one mint, two sales. -/
def doubleSaleTrace : List Op :=
  [Op.mint 3 "a" 100 initialListingPrice, Op.buy 4 1 100,
   Op.list 4 1 100 initialListingPrice, Op.buy 3 1 100]

/-- A state with one listed item and an emptied pooled balance: mint, then
the platform owner withdraws the accumulated fee. -/
def c4State : LedgerState :=
  run initState [Op.mint 3 "a" 100 initialListingPrice, Op.withdrawOp 2]

/-- C1 counterexample: the double-sale trace is an honest operation sequence
from the initial state after which soldCount = 2 exceeds tokenSequence = 1,
so the claimed invariant soldCount ≤ tokenSequence fails on a reachable
state. -/
theorem c1_counterexample :
    HonestOps doubleSaleTrace ∧
      ¬((run initState doubleSaleTrace).itemsSold ≤ (run initState doubleSaleTrace).tokenIds) := by
  constructor
  · decide
  · decide

/-- C1 amended: soldCount ≤ tokenSequence holds along every honest operation
sequence from the initial state in which no successful listMarketItem is
applied to a record whose sold flag is set (relisting a sold token is the one
transition that breaks the inequality, as its sale increments soldCount a
second time against the same mint). -/
theorem c1_soldCount_le_tokenSequence (ops : List Op) (hops : HonestOps ops)
    (hnr : noRelistSold initState ops = true) :
    (run initState ops).itemsSold ≤ (run initState ops).tokenIds := by
  have hacc : (run initState ops).itemsSold =
      countSold (run initState ops).items (run initState ops).tokenIds :=
    soldAcc_run ops initState inv1_init rfl hops hnr
  rw [hacc]
  exact countSold_le _ _

/-- C1 witness: a mint followed by a sale is honest and never relists a sold
record, and the amended invariant holds there. -/
theorem c1_witness :
    (run initState [Op.mint 3 "a" 5 initialListingPrice, Op.buy 4 1 5]).itemsSold ≤
      (run initState [Op.mint 3 "a" 5 initialListingPrice, Op.buy 4 1 5]).tokenIds :=
  c1_soldCount_le_tokenSequence [Op.mint 3 "a" 5 initialListingPrice, Op.buy 4 1 5]
    (by decide) (by decide)

/-- C2: on every successful sale the seller is paid exactly the full buyer
payment, the platform owner is paid exactly the configured listing fee, and
the pooled balance drops by exactly the fee (the payment passes through), so
the fee is drawn from previously pooled funds; and when the pooled balance
cannot cover the fee, the sale aborts with a TransferError. -/
theorem c2_sale_conservation (s : LedgerState) (c id v : Nat)
    (hl : (s.items id).listed = true) (hs : (s.items id).sold = false)
    (hv : v = (s.items id).price) (hsel : (s.items id).seller ≠ c)
    (hlock : s.locked = false) (hc0 : c ≠ 0)
    (hto : s.tokenOwner id = some escrowAddr)
    (hsp : (s.items id).seller ≠ platformAddr) :
    (s.listingPrice ≤ s.balance →
      ∃ t, step s (Op.buy c id v) = Except.ok t ∧
        t.payouts ((s.items id).seller) = s.payouts ((s.items id).seller) + v ∧
        t.payouts platformAddr = s.payouts platformAddr + s.listingPrice ∧
        t.balance + s.listingPrice = s.balance) ∧
    (s.balance < s.listingPrice → step s (Op.buy c id v) = Except.error Err.transfer) := by
  constructor
  · intro hbal
    refine ⟨buySucc s c id v,
      (stepBuy_ok_iff s c id v _).mpr ⟨hlock, hv, hl, hs, hsel, hto, hc0, hbal, rfl⟩, ?_, ?_, ?_⟩
    · show upd (upd s.payouts platformAddr _) ((s.items id).seller) _ ((s.items id).seller) = _
      rw [upd_eq, upd_ne _ _ _ _ hsp]
    · show upd (upd s.payouts platformAddr _) ((s.items id).seller) _ platformAddr = _
      rw [upd_ne _ _ _ _ (fun hh => hsp hh.symm), upd_eq]
    · show s.balance + v - s.listingPrice - v + s.listingPrice = s.balance
      omega
  · intro hbal
    simp only [step, stepBuy]
    rw [if_neg (by simp [hlock]), if_neg (not_not_intro hv), if_neg (by simp [hl]),
      if_neg (by simp [hs]), if_neg hsel, if_neg (not_not_intro hto), if_neg hc0]
    by_cases hbv : s.balance + v < s.listingPrice
    · rw [if_pos hbv]
    · rw [if_neg hbv, if_pos (by omega)]

/-- C2 witness: after one mint the pooled balance equals the fee, and a sale
by a fresh buyer satisfies every hypothesis. -/
theorem c2_witness :
    (let s2 := run initState [Op.mint 3 "a" 100 initialListingPrice];
      (s2.listingPrice ≤ s2.balance →
        ∃ t, step s2 (Op.buy 4 1 100) = Except.ok t ∧
          t.payouts ((s2.items 1).seller) = s2.payouts ((s2.items 1).seller) + 100 ∧
          t.payouts platformAddr = s2.payouts platformAddr + s2.listingPrice ∧
          t.balance + s2.listingPrice = s2.balance) ∧
      (s2.balance < s2.listingPrice → step s2 (Op.buy 4 1 100) = Except.error Err.transfer)) :=
  c2_sale_conservation (run initState [Op.mint 3 "a" 100 initialListingPrice]) 4 1 100
    (by decide) (by decide) (by decide) (by decide) (by decide) (by decide)
    (by decide) (by decide)

/-- C3: every transaction that fails with an error leaves the ledger exactly
as it was: the embedding returns the pre-state for a reverted call, matching
the EVM all-or-nothing transaction semantics the contract relies on (every
failure in the source is a require or a reverting transfer, and there is no
catch-and-continue path). -/
theorem c3_no_partial_mutation (s : LedgerState) (op : Op) (e : Err)
    (h : step s op = Except.error e) : stepState s op = s :=
  stepState_of_error s op e h

/-- C3 witness: a delist by a non-seller fails with AuthorizationError and
leaves the initial state unchanged. -/
theorem c3_witness : stepState initState (Op.delist 3 1) = initState :=
  c3_no_partial_mutation initState (Op.delist 3 1) Err.authorization rfl

/-- C4 counterexample: mint a token (fee pooled), let the platform owner
withdraw the pooled balance, and let a fresh buyer offer the exact price of
the listed, unsold item: all four claimed success conditions hold, yet the
sale aborts with a TransferError because the pooled balance no longer covers
the fee payout, so the four conditions are not sufficient for success. -/
theorem c4_counterexample :
    (c4State.items 1).listed = true ∧ (c4State.items 1).sold = false ∧
      (100 : Nat) = (c4State.items 1).price ∧ (c4State.items 1).seller ≠ 4 ∧
      step c4State (Op.buy 4 1 100) = Except.error Err.transfer := by
  refine ⟨by decide, by decide, by decide, by decide, by rfl⟩

/-- C4 amended: for a buyer that is a plausible external account and a state
whose listed items sit in escrow, a sale succeeds exactly when the item is
listed, not sold, the payment equals the recorded price, the buyer is not
the recorded seller, AND the pooled balance covers the configured listing
fee; on success it sets owner := buyer, sold := true, listed := false and
increments soldCount; errors are classified as the claim states: price
mismatch gives ValidationError, unpurchasable state gives StateError, buying
one's own item gives AuthorizationError. -/
theorem c4_buy_exactly_when (s : LedgerState) (c id v : Nat)
    (hlock : s.locked = false) (hc0 : c ≠ 0)
    (hesc : (s.items id).listed = true → s.tokenOwner id = some escrowAddr) :
    ((∃ t, step s (Op.buy c id v) = Except.ok t) ↔
      ((s.items id).listed = true ∧ (s.items id).sold = false ∧
        v = (s.items id).price ∧ (s.items id).seller ≠ c ∧
        s.listingPrice ≤ s.balance)) ∧
    (∀ t, step s (Op.buy c id v) = Except.ok t →
      t.items id = { s.items id with owner := c, sold := true, listed := false } ∧
      t.itemsSold = s.itemsSold + 1) ∧
    (v ≠ (s.items id).price → step s (Op.buy c id v) = Except.error Err.validation) ∧
    (v = (s.items id).price → ((s.items id).listed = false ∨ (s.items id).sold = true) →
      step s (Op.buy c id v) = Except.error Err.state) ∧
    (v = (s.items id).price → (s.items id).listed = true → (s.items id).sold = false →
      (s.items id).seller = c → step s (Op.buy c id v) = Except.error Err.authorization) := by
  refine ⟨?_, ?_, ?_, ?_, ?_⟩
  · constructor
    · rintro ⟨t, ht⟩
      obtain ⟨_, hv, hl, hs, hsel, _, _, hbal, _⟩ := (stepBuy_ok_iff s c id v t).mp ht
      exact ⟨hl, hs, hv, hsel, hbal⟩
    · rintro ⟨hl, hs, hv, hsel, hbal⟩
      exact ⟨buySucc s c id v,
        (stepBuy_ok_iff s c id v _).mpr ⟨hlock, hv, hl, hs, hsel, hesc hl, hc0, hbal, rfl⟩⟩
  · intro t ht
    obtain ⟨_, _, _, _, _, _, _, _, htt⟩ := (stepBuy_ok_iff s c id v t).mp ht
    subst htt
    constructor
    · show upd s.items id _ id = _
      rw [upd_eq]
    · rfl
  · intro hv
    simp only [step, stepBuy]
    rw [if_neg (by simp [hlock]), if_pos hv]
  · intro hv hbad
    simp only [step, stepBuy]
    rw [if_neg (by simp [hlock]), if_neg (not_not_intro hv)]
    by_cases hlist : (s.items id).listed = false
    · rw [if_pos hlist]
    · rcases hbad with hb | hb
      · exact absurd hb hlist
      · rw [if_neg hlist, if_pos hb]
  · intro hv hl hs hseq
    simp only [step, stepBuy]
    rw [if_neg (by simp [hlock]), if_neg (not_not_intro hv), if_neg (by simp [hl]),
      if_neg (by simp [hs]), if_pos hseq]

/-- C4 witness: the amended characterization applied after a single mint. -/
theorem c4_witness :
    (let s4 := run initState [Op.mint 3 "a" 100 initialListingPrice];
      ((∃ t, step s4 (Op.buy 4 1 100) = Except.ok t) ↔
        ((s4.items 1).listed = true ∧ (s4.items 1).sold = false ∧
          (100 : Nat) = (s4.items 1).price ∧ (s4.items 1).seller ≠ 4 ∧
          s4.listingPrice ≤ s4.balance)) ∧
      (∀ t, step s4 (Op.buy 4 1 100) = Except.ok t →
        t.items 1 = { s4.items 1 with owner := 4, sold := true, listed := false } ∧
        t.itemsSold = s4.itemsSold + 1) ∧
      ((100 : Nat) ≠ (s4.items 1).price → step s4 (Op.buy 4 1 100) = Except.error Err.validation) ∧
      ((100 : Nat) = (s4.items 1).price → ((s4.items 1).listed = false ∨ (s4.items 1).sold = true) →
        step s4 (Op.buy 4 1 100) = Except.error Err.state) ∧
      ((100 : Nat) = (s4.items 1).price → (s4.items 1).listed = true → (s4.items 1).sold = false →
        (s4.items 1).seller = 4 → step s4 (Op.buy 4 1 100) = Except.error Err.authorization)) :=
  c4_buy_exactly_when (run initState [Op.mint 3 "a" 100 initialListingPrice]) 4 1 100
    (by decide) (by decide) (by decide)

/-- C5 counterexample: createToken carries no nonReentrant guard in the
source, so a createToken issued while the re-entrancy lock is held succeeds
and mutates state instead of failing with a StateError, refuting the claim
that every state-mutating fund-moving operation, createToken included, is
wrapped by the lock. -/
theorem c5_counterexample :
    stepOk { initState with locked := true } (Op.mint 3 "a" 100 initialListingPrice) = true ∧
      (stepState { initState with locked := true }
        (Op.mint 3 "a" 100 initialListingPrice)).tokenIds = 1 := by
  constructor
  · decide
  · decide

/-- C5 amended: the re-entrancy lock guards exactly listMarketItem,
delistMarketItem and createMarketSale: with the lock held each of these
fails immediately with a StateError and leaves the state unchanged;
createToken (and updateMarketItemPrice) are not guarded. -/
theorem c5_guarded_ops (s : LedgerState) (c id p v : Nat) (hl : s.locked = true) :
    (step s (Op.list c id p v) = Except.error Err.state ∧ stepState s (Op.list c id p v) = s) ∧
    (step s (Op.delist c id) = Except.error Err.state ∧ stepState s (Op.delist c id) = s) ∧
    (step s (Op.buy c id v) = Except.error Err.state ∧ stepState s (Op.buy c id v) = s) := by
  have h1 : step s (Op.list c id p v) = Except.error Err.state := by
    simp only [step, stepList]
    rw [if_pos hl]
  have h2 : step s (Op.delist c id) = Except.error Err.state := by
    simp only [step, stepDelist]
    rw [if_pos hl]
  have h3 : step s (Op.buy c id v) = Except.error Err.state := by
    simp only [step, stepBuy]
    rw [if_pos hl]
  exact ⟨⟨h1, stepState_of_error _ _ _ h1⟩, ⟨h2, stepState_of_error _ _ _ h2⟩,
    ⟨h3, stepState_of_error _ _ _ h3⟩⟩

/-- C5 witness: the guarded operations all reject re-entry on a locked
initial state. -/
theorem c5_witness :
    (step { initState with locked := true } (Op.list 3 1 5 5) = Except.error Err.state ∧
      stepState { initState with locked := true } (Op.list 3 1 5 5) = { initState with locked := true }) ∧
    (step { initState with locked := true } (Op.delist 3 1) = Except.error Err.state ∧
      stepState { initState with locked := true } (Op.delist 3 1) = { initState with locked := true }) ∧
    (step { initState with locked := true } (Op.buy 3 1 5) = Except.error Err.state ∧
      stepState { initState with locked := true } (Op.buy 3 1 5) = { initState with locked := true }) :=
  c5_guarded_ops { initState with locked := true } 3 1 5 5 rfl

end NFTM

namespace NFTM

/-- A reachable state with one minted, delisted, unsold token. -/
def c6State : LedgerState :=
  run initState [Op.mint 3 "a" 100 initialListingPrice, Op.delist 3 1]

/-- C6 counterexample: after minting and delisting token 1 there are no
listed records at all, yet fetchMarketItems returns a one-element array
holding the zero-valued record (the preallocated slot for the unsold but
delisted token), so the query does not return exactly the records with
owner = escrow and listed = true. -/
theorem c6_counterexample :
    fetchMarketItems c6State = some [defaultItem] ∧ scanItems c6State = [] := by
  constructor
  · decide
  · decide

/-- C6 amended: whenever the counters do not underflow and the listed
records fit in the allocated array, fetchMarketItems returns the records
with owner = escrow and listed = true, in ascending tokenId order, followed
by tokenSequence - soldCount - (number of matches) zero-valued padding
records (an empty tail exactly when every allocated slot is matched). -/
theorem c6_fetch_listed (s : LedgerState) (h1 : s.itemsSold ≤ s.tokenIds)
    (h2 : (scanItems s).length ≤ s.tokenIds - s.itemsSold) :
    fetchMarketItems s =
      some (scanItems s ++
        List.replicate ((s.tokenIds - s.itemsSold) - (scanItems s).length) defaultItem) := by
  rw [fetch_spec s h1, if_pos h2]

/-- C6 witness: the amended characterization evaluated on the mint-delist
state. -/
theorem c6_witness :
    fetchMarketItems c6State =
      some (scanItems c6State ++
        List.replicate ((c6State.tokenIds - c6State.itemsSold) - (scanItems c6State).length)
          defaultItem) :=
  c6_fetch_listed c6State (by decide) (by decide)

/-- C7: when the caller owns the token and the lock is free, listMarketItem
fails with a ValidationError if the price is zero or the fee payment is not
exactly the configured listing fee; and on success, even over a record whose
sold flag was set, the record is replaced wholesale by
tokenId, seller := caller, owner := escrow, price := new price,
sold := false, listed := true. -/
theorem c7_list_overwrites (s : LedgerState) (c id p v : Nat)
    (hlock : s.locked = false) (ho : s.tokenOwner id = some c) :
    ((p = 0 ∨ v ≠ s.listingPrice) → step s (Op.list c id p v) = Except.error Err.validation) ∧
    (p ≠ 0 → v = s.listingPrice → (s.items id).listed = false →
      ∃ t, step s (Op.list c id p v) = Except.ok t ∧
        t.items id = ⟨id, c, escrowAddr, p, false, true⟩) := by
  constructor
  · intro hbad
    simp only [step, stepList]
    rw [if_neg (by simp [hlock]), if_neg (by simp [ho]), if_neg (not_not_intro ho)]
    rcases hbad with hb | hb
    · rw [if_pos hb]
    · by_cases hp : p = 0
      · rw [if_pos hp]
      · rw [if_neg hp, if_pos hb]
  · intro hp hv hlst
    refine ⟨listSucc s c id p v,
      (stepList_ok_iff s c id p v _).mpr ⟨hlock, ho, hp, hv, hlst, rfl⟩, ?_⟩
    show upd s.items id _ id = _
    rw [upd_eq]

/-- C7 witness: token 1 is sold (sold flag set) after a mint and a sale, and
relisting it through its buyer overwrites the record wholesale; a zero price
or wrong fee is rejected with ValidationError there. -/
theorem c7_witness :
    (let s7 := run initState [Op.mint 3 "a" 100 initialListingPrice, Op.buy 4 1 100];
      (s7.items 1).sold = true ∧
      (((55 : Nat) = 0 ∨ (77 : Nat) ≠ s7.listingPrice) →
        step s7 (Op.list 4 1 55 77) = Except.error Err.validation) ∧
      ((55 : Nat) ≠ 0 → (77 : Nat) = s7.listingPrice → (s7.items 1).listed = false →
        ∃ t, step s7 (Op.list 4 1 55 77) = Except.ok t ∧
          t.items 1 = ⟨1, 4, escrowAddr, 55, false, true⟩)) :=
  ⟨by decide,
    (c7_list_overwrites (run initState [Op.mint 3 "a" 100 initialListingPrice, Op.buy 4 1 100])
      4 1 55 77 (by decide) (by decide)).1,
    (c7_list_overwrites (run initState [Op.mint 3 "a" 100 initialListingPrice, Op.buy 4 1 100])
      4 1 55 77 (by decide) (by decide)).2⟩

/-- C8: in every state reachable by an honest operation sequence from the
initial state, a record's owner field equals the escrow address if and only
if its listed flag is set, for every tokenId. -/
theorem c8_owner_iff_listed (ops : List Op) (hops : HonestOps ops) (id : Nat) :
    ((run initState ops).items id).owner = escrowAddr ↔
      ((run initState ops).items id).listed = true :=
  (inv1_run ops initState inv1_init hops).ownerIffListed id

/-- C8 witness: the correspondence after a mint-and-list, on the listed
token. -/
theorem c8_witness :
    ((run initState [Op.mint 3 "a" 100 initialListingPrice]).items 1).owner = escrowAddr ↔
      ((run initState [Op.mint 3 "a" 100 initialListingPrice]).items 1).listed = true :=
  c8_owner_iff_listed [Op.mint 3 "a" 100 initialListingPrice] (by decide) 1

/-- An honest trace with a double sale of token 1 followed by minting and
delisting token 2: an unsold delisted token exists, yet the allocation
count tokenSequence - soldCount is zero. -/
def c9State : LedgerState :=
  run initState
    [Op.mint 3 "a" 100 initialListingPrice, Op.buy 4 1 100,
     Op.list 4 1 100 initialListingPrice, Op.buy 3 1 100,
     Op.mint 4 "b" 50 initialListingPrice, Op.delist 4 2]

/-- C9 counterexample: in the reachable state c9State token 2 is minted,
unsold and currently delisted, yet fetchMarketItems returns an empty array,
no longer than the (empty) set of listed items and with no zero-valued
trailing entries, so the claimed implication (an unsold delisted token makes
the array strictly longer than the listed set) fails once a sold token has
been resold. -/
theorem c9_counterexample :
    (c9State.items 2).sold = false ∧ (c9State.items 2).listed = false ∧
      c9State.tokenOwner 2 = some 4 ∧ 2 ≤ c9State.tokenIds ∧
      fetchMarketItems c9State = some [] ∧ scanItems c9State = [] := by
  refine ⟨by decide, by decide, by decide, by decide, by decide, by decide⟩

/-- C9 amended: fetchMarketItems is indeed not total over reachable states:
after the double-sale trace soldCount exceeds tokenSequence and the
allocation subtraction underflows, so the query aborts; and in any state
whose sold counter still agrees with the number of sold records (as is the
case whenever no sold token has been relisted and resold), whose sold
records are unlisted, and whose owner field tracks the listed flag, the
presence of a minted token that is neither sold nor listed makes the
returned array strictly longer than the set of listed records, the extra
tail being zero-valued padding records. -/
theorem c9_fetch_partiality :
    fetchMarketItems (run initState doubleSaleTrace) = none ∧
      (∀ s : LedgerState, s.itemsSold = countSold s.items s.tokenIds →
        (∀ i, i < s.tokenIds → (s.items (i + 1)).sold = true → (s.items (i + 1)).listed = false) →
        (∀ i, i < s.tokenIds →
          ((s.items (i + 1)).owner = escrowAddr ↔ (s.items (i + 1)).listed = true)) →
        ∀ k, k < s.tokenIds → (s.items (k + 1)).sold = false → (s.items (k + 1)).listed = false →
          (scanItems s).length < s.tokenIds - s.itemsSold ∧
          fetchMarketItems s =
            some (scanItems s ++
              List.replicate ((s.tokenIds - s.itemsSold) - (scanItems s).length) defaultItem)) := by
  constructor
  · decide
  · intro s hacc hd hoi k hk hs hl
    have hlen := scanItems_length s hoi
    have hlt := countListed_add_countSold_lt s.items s.tokenIds k hd hk hs hl
    have hle := countSold_le s.items s.tokenIds
    have hstrict : (scanItems s).length < s.tokenIds - s.itemsSold := by
      rw [hlen, hacc]
      omega
    refine ⟨hstrict, ?_⟩
    rw [fetch_spec s (by omega), if_pos (by omega)]

/-- C9 witness: two mints and a delist give a state with an unsold delisted
token where the padded-array characterization applies. -/
theorem c9_witness :
    (let s9 := run initState
      [Op.mint 3 "a" 100 initialListingPrice, Op.mint 3 "b" 50 initialListingPrice,
       Op.delist 3 2];
      (scanItems s9).length < s9.tokenIds - s9.itemsSold ∧
        fetchMarketItems s9 =
          some (scanItems s9 ++
            List.replicate ((s9.tokenIds - s9.itemsSold) - (scanItems s9).length) defaultItem)) :=
  c9_fetch_partiality.2
    (run initState
      [Op.mint 3 "a" 100 initialListingPrice, Op.mint 3 "b" 50 initialListingPrice,
       Op.delist 3 2])
    (by decide) (by decide) (by decide) 1 (by decide) (by decide) (by decide)

/-- C10: a successful updateMarketItemPrice rewrites only the price field of
the targeted record: the whole post-state equals the pre-state with that one
pointwise record update, every other record, both counters, the ownership
map, the pooled balance and the payouts are untouched, and no event is
appended, so an indexer reading only the event log sees nothing. -/
theorem c10_updatePrice_frame (s : LedgerState) (c id p : Nat) (t : LedgerState)
    (h : step s (Op.setPrice c id p) = Except.ok t) :
    t = { s with items := upd s.items id { s.items id with price := p } } ∧
    t.events = s.events ∧ t.itemsSold = s.itemsSold ∧ t.tokenIds = s.tokenIds ∧
    t.balance = s.balance ∧ t.tokenOwner = s.tokenOwner ∧ t.payouts = s.payouts ∧
    (∀ j, j ≠ id → t.items j = s.items j) ∧
    (t.items id).seller = (s.items id).seller ∧
    (t.items id).owner = (s.items id).owner ∧
    (t.items id).sold = (s.items id).sold ∧
    (t.items id).listed = (s.items id).listed ∧
    (t.items id).price = p := by
  obtain ⟨h1, h2, h3, h4, ht⟩ := (stepSetPrice_ok_iff s c id p t).mp h
  subst ht
  refine ⟨rfl, rfl, rfl, rfl, rfl, rfl, rfl, fun j hj => ?_, ?_, ?_, ?_, ?_, ?_⟩
  · show upd s.items id _ j = s.items j
    rw [upd_ne _ _ _ _ hj]
  · show (upd s.items id _ id).seller = _
    rw [upd_eq]
  · show (upd s.items id _ id).owner = _
    rw [upd_eq]
  · show (upd s.items id _ id).sold = _
    rw [upd_eq]
  · show (upd s.items id _ id).listed = _
    rw [upd_eq]
  · show (upd s.items id _ id).price = _
    rw [upd_eq]

/-- C10 witness: the frame condition instantiated after a single mint, with
the seller raising the price to 777. -/
theorem c10_witness :
    (stepState (run initState [Op.mint 3 "a" 100 initialListingPrice]) (Op.setPrice 3 1 777)) =
      { run initState [Op.mint 3 "a" 100 initialListingPrice] with
        items := upd (run initState [Op.mint 3 "a" 100 initialListingPrice]).items 1
          { (run initState [Op.mint 3 "a" 100 initialListingPrice]).items 1 with price := 777 } } ∧
    (stepState (run initState [Op.mint 3 "a" 100 initialListingPrice])
        (Op.setPrice 3 1 777)).events =
      (run initState [Op.mint 3 "a" 100 initialListingPrice]).events :=
  ⟨(c10_updatePrice_frame (run initState [Op.mint 3 "a" 100 initialListingPrice]) 3 1 777
      (stepState (run initState [Op.mint 3 "a" 100 initialListingPrice]) (Op.setPrice 3 1 777))
      rfl).1,
    (c10_updatePrice_frame (run initState [Op.mint 3 "a" 100 initialListingPrice]) 3 1 777
      (stepState (run initState [Op.mint 3 "a" 100 initialListingPrice]) (Op.setPrice 3 1 777))
      rfl).2.1⟩

end NFTM
